import Mathlib

/-!
# YaSlicer `Renderer` : slice sequencing, culling, small-spot pass, overhang test, PNG queue

Shallow embedding of `src/Slicer/Renderer.cpp`.

Conventions of the embedding:

* `float` values are exact rationals (`ℚ`); rounding of the machine format is not modelled.
* `static_cast<uint32_t>(f)` truncates toward zero and is defined only when the truncated
  value fits in 32 bits (`toUInt32` returns `none` otherwise).
* `uint8_t` raster samples are `Fin 256`.
* `Render()` only touches the GPU; it is recorded in a trace of rendered slice positions.
-/

namespace YaSlicer

/-! ## Data model -/

/-- The `glm::vec3` of the source. -/
structure Vec3 where
  x : ℚ
  y : ℚ
  z : ℚ
  deriving DecidableEq, Repr

/-- The fields of `Settings` read by the code under study. -/
structure Settings where
  plateWidth : ℚ
  plateHeight : ℚ
  renderWidth : Nat
  renderHeight : Nat
  step : ℚ
  doInflate : Bool
  inflateDistance : ℚ
  doSmallSpotsProcessing : Bool
  smallSpotThreshold : ℚ
  smallSpotInflateDistance : ℚ
  queue : Nat
  deriving DecidableEq, Repr

/-- The `model_` member: bounding box and current slice position. -/
structure ModelData where
  min : Vec3
  max : Vec3
  pos : ℚ
  deriving DecidableEq, Repr

/-- The `MeshInfo` record kept per submesh. -/
structure MeshInfo where
  idxCount : Nat
  zMin : ℚ
  zMax : ℚ
  deriving DecidableEq, Repr

/-- The part of the `Renderer` object the sequencing and culling code reads and writes.
`rendered` is the trace of `Render()` calls: the slice position of each call, oldest first. -/
structure Renderer where
  settings_ : Settings
  model_ : ModelData
  meshInfo_ : List MeshInfo
  rendered : List ℚ
  deriving DecidableEq, Repr

/-! ## Numeric conversions -/

/-- Truncation toward zero, the rounding of a float-to-integer cast. -/
def truncate (x : ℚ) : Int :=
  if 0 ≤ x then ⌊x⌋ else ⌈x⌉

/-- The cast `static_cast<uint32_t>(x)`: the truncated value when it is representable. -/
def toUInt32 (x : ℚ) : Option Nat :=
  if 0 ≤ truncate x ∧ truncate x < 2 ^ 32 then some (truncate x).toNat else none

/-- Round-half-up to an integer, the `round` of the specification. -/
def roundHalfUp (x : ℚ) : Int :=
  ⌊x + 1 / 2⌋

/-! ## Slice sequencer -/

/-- The call `Render()`: one more entry in the trace, at the current position. -/
def Render (r : Renderer) : Renderer :=
  { r with rendered := r.rendered ++ [r.model_.pos] }

/-- Source: `Renderer::GetLayersCount`. -/
def GetLayersCount (r : Renderer) : Option Nat :=
  toUInt32 ((r.model_.max.z - r.model_.min.z) / r.settings_.step + 1 / 2)

/-- Source: `Renderer::FirstSlice`. -/
def FirstSlice (r : Renderer) : Renderer :=
  Render { r with model_ := { r.model_ with pos := r.model_.min.z + r.settings_.step / 2 } }

/-- Source: `Renderer::NextSlice`; the state after the call and the returned flag. -/
def NextSlice (r : Renderer) : Renderer × Bool :=
  let r1 : Renderer := { r with model_ := { r.model_ with pos := r.model_.pos + r.settings_.step } }
  if r1.model_.pos ≥ r1.model_.max.z then (r1, false) else (Render r1, true)

/-- Source: `Renderer::GetCurrentSlice`. -/
def GetCurrentSlice (r : Renderer) : Option Nat :=
  toUInt32 (max ((r.model_.pos - r.model_.min.z) / r.settings_.step + 1 / 2 - 1) 0)

/-- The state after `k` consecutive `NextSlice` calls that all returned `true`;
`none` when one of them returned `false`. -/
def NextSliceTimes : Nat → Renderer → Option Renderer
  | 0, r => some r
  | k + 1, r =>
    match NextSlice r with
    | (r1, true) => NextSliceTimes k r1
    | (_, false) => none

/-- The driver loop `FirstSlice(); while (NextSlice()) ...` renders exactly `n` further
slices: the first `n` calls of `NextSlice` return `true` and the next one returns `false`. -/
def RendersExactly (r : Renderer) (n : Nat) : Bool :=
  match NextSliceTimes n (FirstSlice r) with
  | some r1 => !(NextSlice r1).2
  | none => false

/-- The sequencing invariant `min.z ≤ pos ≤ max.z`. -/
def PosInRange (r : Renderer) : Prop :=
  r.model_.min.z ≤ r.model_.pos ∧ r.model_.pos ≤ r.model_.max.z

instance (r : Renderer) : Decidable (PosInRange r) := by
  unfold PosInRange; infer_instance

/-- A renderer whose model spans `[lo, hi]` in z, positioned at `pos`, with the given step. -/
def mkSeq (lo hi pos step : ℚ) : Renderer :=
  { settings_ :=
      { plateWidth := 100, plateHeight := 100, renderWidth := 10, renderHeight := 10,
        step := step, doInflate := false, inflateDistance := 0,
        doSmallSpotsProcessing := false, smallSpotThreshold := 0,
        smallSpotInflateDistance := 0, queue := 0 },
    model_ := { min := ⟨0, 0, lo⟩, max := ⟨0, 0, hi⟩, pos := pos },
    meshInfo_ := [],
    rendered := [] }

/-! ## Model loading -/

/-- The constant `std::numeric_limits<float>::max()`; `lowest()` is its negation. -/
def FLT_MAX : ℚ := (2 ^ 24 - 1) * 2 ^ 104

/-- The constructor `glm::vec3(c)`. -/
def Vec3.splat (c : ℚ) : Vec3 := ⟨c, c, c⟩

/-- Componentwise `glm::min`. -/
def Vec3.min (a b : Vec3) : Vec3 := ⟨Min.min a.x b.x, Min.min a.y b.y, Min.min a.z b.z⟩

/-- Componentwise `glm::max`. -/
def Vec3.max (a b : Vec3) : Vec3 := ⟨Max.max a.x b.x, Max.max a.y b.y, Max.max a.z b.z⟩

/-- Componentwise difference. -/
def Vec3.sub (a b : Vec3) : Vec3 := ⟨a.x - b.x, a.y - b.y, a.z - b.z⟩

/-- Componentwise sum. -/
def Vec3.add (a b : Vec3) : Vec3 := ⟨a.x + b.x, a.y + b.y, a.z + b.z⟩

/-- The buffers `LoadModel` hands to its callback for one submesh. The position buffer is
read three floats at a time as a `glm::vec3`, so it is a list of vectors here. -/
structure Submesh where
  vb : List Vec3
  nb : List Vec3
  ib : List Nat
  deriving DecidableEq, Repr

/-- The loop over the vertices of one submesh: `(meshMin, meshMax)`. -/
def meshBounds (vb : List Vec3) : Vec3 × Vec3 :=
  vb.foldl (fun b v => (Vec3.min b.1 v, Vec3.max b.2 v))
    (Vec3.splat FLT_MAX, Vec3.splat (-FLT_MAX))

/-- The callback given to `LoadModel`: records the submesh and widens the model box. -/
def addSubmesh (r : Renderer) (m : Submesh) : Renderer :=
  let b := meshBounds m.vb
  { r with
    meshInfo_ := r.meshInfo_ ++ [{ idxCount := m.ib.length, zMin := b.1.z, zMax := b.2.z }],
    model_ := { r.model_ with min := Vec3.min r.model_.min b.1, max := Vec3.max r.model_.max b.2 } }

/-- Source: `Renderer::CreateGeometryBuffers`; `meshes` is the sequence of submeshes for which
`LoadModel` invokes the callback. The thrown `std::runtime_error` is the `error` result. -/
def CreateGeometryBuffers (r : Renderer) (meshes : List Submesh) : Except String Renderer :=
  let r0 : Renderer :=
    { r with model_ := { r.model_ with min := Vec3.splat FLT_MAX, max := Vec3.splat (-FLT_MAX) } }
  let r1 := meshes.foldl addSubmesh r0
  let r2 : Renderer := { r1 with model_ := { r1.model_ with pos := r1.model_.min.z } }
  let extent := Vec3.sub r2.model_.max r2.model_.min
  if extent.x > r2.settings_.plateWidth ∨ extent.y > r2.settings_.plateHeight then
    Except.error "Model is larger than platform"
  else
    Except.ok r2

/-- Every vertex of every submesh. -/
def allVertices (meshes : List Submesh) : List Vec3 :=
  (meshes.map (fun m => m.vb)).flatten

/-- Every coordinate of the vertex is a finite `float`. -/
def Vec3.Finite (v : Vec3) : Prop :=
  (-FLT_MAX ≤ v.x ∧ v.x ≤ FLT_MAX) ∧ (-FLT_MAX ≤ v.y ∧ v.y ≤ FLT_MAX) ∧
    (-FLT_MAX ≤ v.z ∧ v.z ≤ FLT_MAX)

instance (v : Vec3) : Decidable v.Finite := by
  unfold Vec3.Finite; infer_instance

/-- The submesh with every vertex position changed by `f`. -/
def Submesh.mapPositions (f : Vec3 → Vec3) (m : Submesh) : Submesh :=
  { m with vb := m.vb.map f }

/-- A sample submesh spanning the unit cube. -/
def cubeMesh : Submesh :=
  { vb := [⟨0, 0, 0⟩, ⟨1, 1, 1⟩], nb := [⟨0, 0, 1⟩, ⟨0, 0, 1⟩], ib := [0, 1, 0] }

/-- A sample submesh spanning exactly a 100 by 100 plate, away from the origin. -/
def plateMesh : Submesh :=
  { vb := [⟨20, -30, 0⟩, ⟨120, 70, 5⟩], nb := [⟨0, 0, 1⟩, ⟨0, 0, 1⟩], ib := [0, 1, 0] }

/-- The renderer state reached by loading `cubeMesh` with a layer step of 4. -/
def loadedCube : Renderer :=
  { mkSeq 0 1 0 4 with
    model_ := { min := ⟨0, 0, 0⟩, max := ⟨1, 1, 1⟩, pos := 0 },
    meshInfo_ := [{ idxCount := 3, zMin := 0, zMax := 1 }] }

/-- The renderer state reached by loading `cubeMesh` with a layer step of 1/4. -/
def loadedCubeFine : Renderer :=
  { mkSeq 0 1 0 (1 / 4) with
    model_ := { min := ⟨0, 0, 0⟩, max := ⟨1, 1, 1⟩, pos := 0 },
    meshInfo_ := [{ idxCount := 3, zMin := 0, zMax := 1 }] }

/-! ## Culling and the Model pass -/

/-- Source: `Renderer::IsUpsideDownRendering`. -/
def IsUpsideDownRendering (r : Renderer) : Bool :=
  decide (r.model_.pos ≤ (r.model_.max.z + r.model_.min.z) / 2)

/-- Source: `Renderer::ShouldRender`. -/
def ShouldRender (r : Renderer) (info : MeshInfo) (inflateDistance : ℚ) : Bool :=
  if IsUpsideDownRendering r then
    decide (info.zMin - inflateDistance ≤ r.model_.pos)
  else
    decide (info.zMax + inflateDistance ≥ r.model_.pos)

/-- Source: the submesh loop of `Renderer::Model`; the indices of the submeshes it draws. -/
def Model (r : Renderer) (inflateDistance : ℚ) : List Nat :=
  (r.meshInfo_.enum.filter (fun p => ShouldRender r p.2 inflateDistance)).map (fun p => p.1)

/-! ## Overhang test -/

/-- Source: `HasOverhangs` (anonymous namespace). -/
def HasOverhangs (raster : List (Fin 256)) (width height : Nat) : Bool :=
  match raster with
  | [] => false
  | v :: rest => if v.val ≥ 255 then true else HasOverhangs rest width height

/-! ## Small-spot pass -/

/-- The `Segment` record, with the fields the pass reads. -/
structure Segment where
  val : Nat
  xBegin : Nat
  xEnd : Nat
  yBegin : Nat
  yEnd : Nat
  deriving DecidableEq, Repr

/-- The helpers of `Raster.h` called by the small-spot pass. The header is not in the source
tree under study, so they are parameters: `ForEachPixel` gives the pixels `(x, y)` for which
the body is invoked, in order; `Dilate src dst w h` gives the new content of `dst`. -/
structure RasterOps (Range : Type) where
  ExpandRange : Nat → Nat → Nat → Nat → Range
  ForEachPixel : Range → Range → List (Nat × Nat)
  AnyOfPixels : Range → Range → (Nat → Nat → Bool) → Bool
  CalculateSegmentArea : Segment → ℚ → List (Fin 256) → List Nat → Nat → Nat → ℚ
  Dilate : List (Fin 256) → List (Fin 256) → Nat → Nat → List (Fin 256)

/-- The local `physWidth` of `RenderCommon`. -/
def physWidth (s : Settings) : ℚ := s.plateWidth / s.renderWidth

/-- The local `physHeight` of `RenderCommon`. -/
def physHeight (s : Settings) : ℚ := s.plateHeight / s.renderHeight

/-- The local `physPixelArea` of `RenderCommon`. -/
def physPixelArea (s : Settings) : ℚ := physWidth s * physHeight s

/-- The ternary that sets `fillValue` in `RenderCommon`. -/
def fillValue (area threshold : ℚ) : Fin 256 :=
  if area > threshold then 0 else 255

/-- The test guarding the write in the `ForEachPixel` body: the pixel is set and a pixel of
its expanded neighbourhood carries the label of the segment. -/
def isSegmentForeground {Range : Type} (ops : RasterOps Range) (s : Settings)
    (segmentedRaster : List Nat) (segment : Segment) (raster : List (Fin 256))
    (p : Nat × Nat) : Bool :=
  decide (raster.getD (p.2 * s.renderWidth + p.1) 0 > 0) &&
    ops.AnyOfPixels (ops.ExpandRange p.1 (p.1 + 1) 0 s.renderWidth)
      (ops.ExpandRange p.2 (p.2 + 1) 0 s.renderHeight)
      (fun x y => segmentedRaster.getD (y * s.renderWidth + x) 0 == segment.val)

/-- The body of the `ForEachPixel` lambda in `RenderCommon`, at pixel `p = (x, y)`. -/
def fillPixel {Range : Type} (ops : RasterOps Range) (s : Settings)
    (segmentedRaster : List Nat) (segment : Segment) (fv : Fin 256)
    (raster : List (Fin 256)) (p : Nat × Nat) : List (Fin 256) :=
  if isSegmentForeground ops s segmentedRaster segment raster p then
    raster.set (p.2 * s.renderWidth + p.1) fv
  else
    raster

/-- The area `RenderCommon` compares with the threshold for one segment. -/
def segmentArea {Range : Type} (ops : RasterOps Range) (s : Settings)
    (segmentedRaster : List Nat) (raster : List (Fin 256)) (segment : Segment) : ℚ :=
  ops.CalculateSegmentArea segment (physPixelArea s) raster segmentedRaster
    s.renderWidth s.renderHeight

/-- One iteration of `for (const auto& segment : segments)` in `RenderCommon`. -/
def processSegment {Range : Type} (ops : RasterOps Range) (s : Settings)
    (segmentedRaster : List Nat) (raster : List (Fin 256)) (segment : Segment) :
    List (Fin 256) :=
  let fv := fillValue (segmentArea ops s segmentedRaster raster segment) s.smallSpotThreshold
  (ops.ForEachPixel (ops.ExpandRange segment.xBegin segment.xEnd 0 s.renderWidth)
    (ops.ExpandRange segment.yBegin segment.yEnd 0 s.renderHeight)).foldl
    (fillPixel ops s segmentedRaster segment fv) raster

/-- The whole segment loop of `RenderCommon`. -/
def processSegments {Range : Type} (ops : RasterOps Range) (s : Settings)
    (segmentedRaster : List Nat) (raster : List (Fin 256)) (segments : List Segment) :
    List (Fin 256) :=
  segments.foldl (processSegment ops s segmentedRaster) raster

/-- The state of the dilation loop of `RenderCommon`; `rounds` counts the `Dilate` calls. -/
structure DilateState where
  raster : List (Fin 256)
  rasterDilated : List (Fin 256)
  expansionSize : ℚ
  rounds : Nat
  deriving DecidableEq, Repr

/-- The loop `while (expansionSize <= smallSpotInflateDistance)` of `RenderCommon`, run for at
most `fuel` tests of its condition; `none` when the fuel does not reach the exit. -/
def dilateLoop {Range : Type} (ops : RasterOps Range) (s : Settings) :
    Nat → DilateState → Option DilateState
  | 0, _ => none
  | fuel + 1, st =>
    if st.expansionSize ≤ s.smallSpotInflateDistance then
      dilateLoop ops s fuel
        { raster := ops.Dilate st.raster st.rasterDilated s.renderWidth s.renderHeight,
          rasterDilated := st.raster,
          expansionSize := st.expansionSize + (physWidth s + physHeight s) / 2,
          rounds := st.rounds + 1 }
    else
      some st

/-- The loop with its initialisation: `rasterDilated(raster.size())`, `expansionSize = 0`. -/
def dilateRaster {Range : Type} (ops : RasterOps Range) (s : Settings) (fuel : Nat)
    (raster : List (Fin 256)) : Option DilateState :=
  dilateLoop ops s fuel
    { raster := raster, rasterDilated := List.replicate raster.length 0,
      expansionSize := 0, rounds := 0 }

/-- The half-open range `[b, e)` of pixel coordinates. -/
def rangeList (rg : Nat × Nat) : List Nat :=
  List.range' rg.1 (rg.2 - rg.1)

/-- Modelled from the spec: an instance of the `Raster.h` helpers, which are not among the
sources under study, used to evaluate the pass on sample rasters. The area of a segment is the
pixel area times the number of its foreground pixels (section 4.5, step 2); ranges are
half-open pairs widened by one pixel inside the bounds; pixels are visited row by row. -/
def sampleOps : RasterOps (Nat × Nat) :=
  { ExpandRange := fun b e lo hi => (if b > lo then b - 1 else lo, if e < hi then e + 1 else hi),
    ForEachPixel := fun rx ry =>
      (rangeList ry).flatMap (fun y => (rangeList rx).map (fun x => (x, y))),
    AnyOfPixels := fun rx ry f =>
      (rangeList ry).any (fun y => (rangeList rx).any (fun x => f x y)),
    CalculateSegmentArea := fun seg a raster segmented _ _ =>
      a * ((raster.zip segmented).filter (fun p => decide (p.1.val > 0) && p.2 == seg.val)).length,
    Dilate := fun src _ _ _ => src }

/-- Settings of a 4 by 1 raster on a 4 by 1 plate (unit pixels) for the small-spot pass. -/
def spotSettings (threshold inflate : ℚ) : Settings :=
  { plateWidth := 4, plateHeight := 1, renderWidth := 4, renderHeight := 1,
    step := 1, doInflate := false, inflateDistance := 0,
    doSmallSpotsProcessing := true, smallSpotThreshold := threshold,
    smallSpotInflateDistance := inflate, queue := 0 }

/-- The per-round expansion `(physWidth + physHeight) / 2` of the dilation loop. -/
def roundExpansion (s : Settings) : ℚ := (physWidth s + physHeight s) / 2

/-! ## PNG write queue -/

/-- Source: `Renderer::SavePng`, as a step on `pngSaveResult_`. A stored future is named by
the number of its task; `ready v` tells whether `wait_for` finds task `v` completed at the
sweep of this call; `future` is the task submitted by this call. -/
def SavePng (s : Settings) (ready : Nat → Bool) (future : Nat) (pngSaveResult : List Nat) :
    List Nat :=
  let concurrency := s.queue
  let clearCompletedTasks := decide (pngSaveResult.length > concurrency)
  if clearCompletedTasks then
    let swept := pngSaveResult.filter (fun v => !ready v)
    if swept.length > concurrency then
      swept
    else
      swept ++ [future]
  else
    pngSaveResult ++ [future]

/-- A sequence of `SavePng` calls; each call comes with its completion oracle and task. -/
def SavePngCalls (s : Settings) (calls : List ((Nat → Bool) × Nat)) (pngSaveResult : List Nat) :
    List Nat :=
  calls.foldl (fun q c => SavePng s c.1 c.2 q) pngSaveResult

/-- Settings with the given write-queue depth. -/
def queueSettings (queue : Nat) : Settings :=
  { (spotSettings 0 0) with queue := queue }

/-! # Theorems -/

/-! ## Numeric conversions: lemmas -/

theorem truncate_nonneg_eq (x : ℚ) (h : 0 ≤ x) : truncate x = ⌊x⌋ := by
  simp [truncate, h]

theorem floor_max_zero (t : ℚ) : ⌊max t 0⌋ = max ⌊t⌋ 0 := by
  rcases le_total t 0 with h | h
  · rw [max_eq_right h, max_eq_right]
    · simp
    · exact Int.floor_nonpos h
  · rw [max_eq_left h, max_eq_left (Int.floor_nonneg.mpr h)]

theorem toUInt32_eq_some_iff (x : ℚ) (h : 0 ≤ x) (n : Nat) :
    toUInt32 x = some n ↔ (⌊x⌋ = (n : Int) ∧ n < 2 ^ 32) := by
  have h0 : 0 ≤ ⌊x⌋ := Int.floor_nonneg.mpr h
  unfold toUInt32
  rw [truncate_nonneg_eq x h]
  constructor
  · intro hh
    split_ifs at hh with hc
    · simp only [Option.some.injEq] at hh
      have : ((⌊x⌋.toNat : Nat) : Int) = ⌊x⌋ := Int.toNat_of_nonneg h0
      constructor
      · rw [← hh]; exact this.symm
      · have h2 := hc.2
        rw [← this, hh] at h2
        exact_mod_cast h2
  · rintro ⟨h1, h2⟩
    have hc : 0 ≤ ⌊x⌋ ∧ ⌊x⌋ < 2 ^ 32 := ⟨h0, by rw [h1]; exact_mod_cast h2⟩
    rw [if_pos hc, h1]
    simp

/-! ## Slice sequencer: lemmas -/

theorem nextSlice_fields (r : Renderer) :
    (NextSlice r).1.settings_ = r.settings_ ∧ (NextSlice r).1.model_.min = r.model_.min ∧
    (NextSlice r).1.model_.max = r.model_.max ∧
    (NextSlice r).1.model_.pos = r.model_.pos + r.settings_.step := by
  by_cases h : r.model_.pos + r.settings_.step ≥ r.model_.max.z
  · simp [NextSlice, Render, h]
  · simp [NextSlice, Render, h]

theorem nextSlice_true_iff (r : Renderer) :
    (NextSlice r).2 = true ↔ r.model_.pos + r.settings_.step < r.model_.max.z := by
  by_cases h : r.model_.pos + r.settings_.step ≥ r.model_.max.z
  · simp only [NextSlice, Render, h, if_true]
    simp only [ge_iff_le] at h
    simp [not_lt.mpr h]
  · simp only [NextSlice, Render, h, if_false]
    simp only [ge_iff_le, not_le] at h
    simp [h]

theorem nextSliceTimes_succ_of_true (k : Nat) (r : Renderer) (h : (NextSlice r).2 = true) :
    NextSliceTimes (k + 1) r = NextSliceTimes k (NextSlice r).1 := by
  rw [NextSliceTimes]
  rcases hN : NextSlice r with ⟨r1, b⟩
  rw [hN] at h
  simp only at h
  subst h
  rfl

theorem nextSliceTimes_succ_of_false (k : Nat) (r : Renderer) (h : (NextSlice r).2 = false) :
    NextSliceTimes (k + 1) r = none := by
  rw [NextSliceTimes]
  rcases hN : NextSlice r with ⟨r1, b⟩
  rw [hN] at h
  simp only at h
  subst h
  rfl

/-- What `k` successful `NextSlice` calls leave behind. -/
theorem nextSliceTimes_some (k : Nat) : ∀ (r r1 : Renderer), NextSliceTimes k r = some r1 →
    r1.settings_ = r.settings_ ∧ r1.model_.min = r.model_.min ∧ r1.model_.max = r.model_.max ∧
    r1.model_.pos = r.model_.pos + k * r.settings_.step ∧
    (0 < k → r1.model_.pos < r1.model_.max.z) := by
  induction k with
  | zero =>
    intro r r1 h
    simp only [NextSliceTimes, Option.some.injEq] at h
    subst h
    simp
  | succ k ih =>
    intro r r1 h
    by_cases hb : (NextSlice r).2 = true
    · rw [nextSliceTimes_succ_of_true k r hb] at h
      obtain ⟨hs, hmin, hmax, hpos, hlt⟩ := ih _ _ h
      obtain ⟨fs, fmin, fmax, fpos⟩ := nextSlice_fields r
      refine ⟨hs.trans fs, hmin.trans fmin, hmax.trans fmax, ?_, fun _ => ?_⟩
      · rw [hpos, fpos, fs]; push_cast; ring
      · rcases Nat.eq_zero_or_pos k with hk | hk
        · subst hk
          simp only [NextSliceTimes, Option.some.injEq] at h
          subst h
          rw [fmax, fpos]
          exact (nextSlice_true_iff r).mp hb
        · exact hlt hk
    · simp only [Bool.not_eq_true] at hb
      rw [nextSliceTimes_succ_of_false k r hb] at h
      exact absurd h (by simp)

/-- With a positive step, `k` calls succeed as soon as the `k`-th position is below `max.z`. -/
theorem nextSliceTimes_exists (k : Nat) : ∀ (r : Renderer), 0 < r.settings_.step →
    (0 < k → r.model_.pos + k * r.settings_.step < r.model_.max.z) →
    ∃ r1, NextSliceTimes k r = some r1 := by
  induction k with
  | zero => intro r _ _; exact ⟨r, rfl⟩
  | succ k ih =>
    intro r hstep hlt
    have hlt1 := hlt (Nat.succ_pos k)
    push_cast at hlt1
    have hk0 : (0 : ℚ) ≤ k := Nat.cast_nonneg k
    have hb : (NextSlice r).2 = true := by
      rw [nextSlice_true_iff]
      nlinarith
    obtain ⟨fs, fmin, fmax, fpos⟩ := nextSlice_fields r
    rw [nextSliceTimes_succ_of_true k r hb]
    apply ih
    · rw [fs]; exact hstep
    · intro _
      rw [fpos, fs, fmax]
      linarith

theorem firstSlice_fields (r : Renderer) :
    (FirstSlice r).settings_ = r.settings_ ∧ (FirstSlice r).model_.min = r.model_.min ∧
    (FirstSlice r).model_.max = r.model_.max ∧
    (FirstSlice r).model_.pos = r.model_.min.z + r.settings_.step / 2 := by
  simp [FirstSlice, Render]

theorem rendersExactly_iff (r : Renderer) (n : Nat) :
    RendersExactly r n = true ↔
      ∃ r1, NextSliceTimes n (FirstSlice r) = some r1 ∧ (NextSlice r1).2 = false := by
  unfold RendersExactly
  cases h : NextSliceTimes n (FirstSlice r) with
  | none => simp
  | some r1 => simp

/-- The number of further renders, from the height and the step. -/
theorem rendersExactly_of_bounds (r : Renderer) (hstep : 0 < r.settings_.step) (n : Nat)
    (h1 : 0 < n → ((n : ℚ) + 1 / 2) * r.settings_.step < r.model_.max.z - r.model_.min.z)
    (h2 : r.model_.max.z - r.model_.min.z ≤ ((n : ℚ) + 3 / 2) * r.settings_.step) :
    RendersExactly r n = true := by
  rw [rendersExactly_iff]
  obtain ⟨fs, fmin, fmax, fpos⟩ := firstSlice_fields r
  obtain ⟨r1, hr1⟩ := nextSliceTimes_exists n (FirstSlice r) (by rw [fs]; exact hstep)
    (fun hn => by
      have := h1 hn
      rw [fs, fmax, fpos]
      linarith)
  refine ⟨r1, hr1, ?_⟩
  obtain ⟨hs, hmin, hmax, hpos, -⟩ := nextSliceTimes_some n _ _ hr1
  by_contra hb
  simp only [Bool.not_eq_false] at hb
  rw [nextSlice_true_iff, hpos, hs, hmax, fs, fmax, fpos] at hb
  linarith

/-- The number of further renders is determined by the renderer. -/
theorem rendersExactly_unique (r : Renderer) (n m : Nat) (hn : RendersExactly r n = true)
    (hm : RendersExactly r m = true) : n = m := by
  have key : ∀ a b : Nat, RendersExactly r a = true → RendersExactly r b = true →
      ¬ a < b := by
    intro a b h1 h2 hab
    obtain ⟨ra, ha, hfa⟩ := (rendersExactly_iff r a).mp h1
    obtain ⟨rb, hb, _⟩ := (rendersExactly_iff r b).mp h2
    obtain ⟨c, rfl⟩ : ∃ c, b = a + (c + 1) := ⟨b - a - 1, by omega⟩
    have split : ∀ (k : Nat) (s : Renderer), NextSliceTimes k s = some ra →
        NextSliceTimes (k + (c + 1)) s = NextSliceTimes (c + 1) ra := by
      intro k
      induction k with
      | zero =>
        intro s hs
        simp only [NextSliceTimes, Option.some.injEq] at hs
        subst hs
        simp
      | succ k ih =>
        intro s hs
        by_cases hbt : (NextSlice s).2 = true
        · rw [nextSliceTimes_succ_of_true k s hbt] at hs
          have e : k + 1 + (c + 1) = (k + (c + 1)) + 1 := by omega
          rw [e, nextSliceTimes_succ_of_true _ s hbt]
          exact ih _ hs
        · simp only [Bool.not_eq_true] at hbt
          rw [nextSliceTimes_succ_of_false k s hbt] at hs
          exact absurd hs (by simp)
    rw [split a _ ha, nextSliceTimes_succ_of_false c ra hfa] at hb
    exact absurd hb (by simp)
  rcases Nat.lt_trichotomy n m with h | h | h
  · exact absurd h (key n m hn hm)
  · exact h
  · exact absurd h (key m n hm hn)

theorem getLayersCount_eq (r : Renderer) (hstep : 0 < r.settings_.step)
    (hH : 0 ≤ r.model_.max.z - r.model_.min.z)
    (hrange : (r.model_.max.z - r.model_.min.z) / r.settings_.step + 1 / 2 < 2 ^ 32) :
    ∃ L : Nat, GetLayersCount r = some L ∧
      (L : Int) = ⌊(r.model_.max.z - r.model_.min.z) / r.settings_.step + 1 / 2⌋ := by
  have hq : 0 ≤ (r.model_.max.z - r.model_.min.z) / r.settings_.step := div_nonneg hH hstep.le
  have hx : 0 ≤ (r.model_.max.z - r.model_.min.z) / r.settings_.step + 1 / 2 := by linarith
  have hf0 := Int.floor_nonneg.mpr hx
  refine ⟨⌊(r.model_.max.z - r.model_.min.z) / r.settings_.step + 1 / 2⌋.toNat, ?_,
    Int.toNat_of_nonneg hf0⟩
  unfold GetLayersCount
  rw [toUInt32_eq_some_iff _ hx]
  refine ⟨(Int.toNat_of_nonneg hf0).symm, ?_⟩
  have h1 : ⌊(r.model_.max.z - r.model_.min.z) / r.settings_.step + 1 / 2⌋ < 2 ^ 32 := by
    rw [Int.floor_lt]
    exact_mod_cast hrange
  have h2 := Int.toNat_of_nonneg hf0
  have : ((⌊(r.model_.max.z - r.model_.min.z) / r.settings_.step + 1 / 2⌋.toNat : Nat) : Int)
      < ((2 ^ 32 : Nat) : Int) := by
    rw [h2]; exact_mod_cast h1
  exact_mod_cast this

/-! ## C1 : layers rendered by the driver loop -/

theorem fillPixel_getD {Range : Type} (ops : RasterOps Range) (s : Settings)
    (segmentedRaster : List Nat) (segment : Segment) (fv : Fin 256)
    (cur : List (Fin 256)) (p : Nat × Nat) (i : Nat) :
    (fillPixel ops s segmentedRaster segment fv cur p).getD i 0 = cur.getD i 0 ∨
    (fillPixel ops s segmentedRaster segment fv cur p).getD i 0 = fv := by
  unfold fillPixel
  split_ifs with h
  · by_cases hi : p.2 * s.renderWidth + p.1 = i
    · by_cases hlen : i < cur.length
      · right
        rw [hi]
        simp [List.getD_eq_getElem?_getD, List.getElem?_set, hlen]
      · left
        rw [hi]
        simp [List.getD_eq_getElem?_getD, List.getElem?_set, hlen,
          List.getElem?_eq_none (not_lt.mp hlen)]
    · left
      simp [List.getD_eq_getElem?_getD, List.getElem?_set, hi]
  · left; rfl

theorem fillPixel_length {Range : Type} (ops : RasterOps Range) (s : Settings)
    (segmentedRaster : List Nat) (segment : Segment) (fv : Fin 256)
    (cur : List (Fin 256)) (p : Nat × Nat) :
    (fillPixel ops s segmentedRaster segment fv cur p).length = cur.length := by
  unfold fillPixel
  split_ifs <;> simp

/-- Every sample after the pixel loop is the old sample or the fill value. -/
theorem foldl_fillPixel_getD {Range : Type} (ops : RasterOps Range) (s : Settings)
    (segmentedRaster : List Nat) (segment : Segment) (fv : Fin 256)
    (pixels : List (Nat × Nat)) : ∀ (cur : List (Fin 256)) (i : Nat),
    (pixels.foldl (fillPixel ops s segmentedRaster segment fv) cur).getD i 0 = cur.getD i 0 ∨
    (pixels.foldl (fillPixel ops s segmentedRaster segment fv) cur).getD i 0 = fv := by
  induction pixels with
  | nil => intro cur i; left; rfl
  | cons p pixels ih =>
    intro cur i
    simp only [List.foldl_cons]
    rcases ih (fillPixel ops s segmentedRaster segment fv cur p) i with h | h
    · rcases fillPixel_getD ops s segmentedRaster segment fv cur p i with h2 | h2
      · left; rw [h, h2]
      · right; rw [h, h2]
    · right; exact h

/-- A visited foreground pixel of the segment ends with the fill value. -/
theorem foldl_fillPixel_written {Range : Type} (ops : RasterOps Range) (s : Settings)
    (segmentedRaster : List Nat) (segment : Segment) (fv : Fin 256)
    (raster : List (Fin 256)) (p : Nat × Nat)
    (hfg : isSegmentForeground ops s segmentedRaster segment raster p = true)
    (pixels : List (Nat × Nat)) : ∀ (cur : List (Fin 256)), p ∈ pixels →
    p.2 * s.renderWidth + p.1 < cur.length →
    (cur.getD (p.2 * s.renderWidth + p.1) 0 = raster.getD (p.2 * s.renderWidth + p.1) 0 ∨
      cur.getD (p.2 * s.renderWidth + p.1) 0 = fv) →
    (pixels.foldl (fillPixel ops s segmentedRaster segment fv) cur).getD
      (p.2 * s.renderWidth + p.1) 0 = fv := by
  induction pixels with
  | nil => intro cur hp; exact absurd hp (List.not_mem_nil _)
  | cons p1 pixels ih =>
    intro cur hp hlen hcur
    simp only [List.foldl_cons]
    rcases List.mem_cons.mp hp with rfl | hp
    · have hstep : (fillPixel ops s segmentedRaster segment fv cur p).getD
          (p.2 * s.renderWidth + p.1) 0 = fv := by
        unfold isSegmentForeground at hfg
        simp only [Bool.and_eq_true, decide_eq_true_eq] at hfg
        by_cases hc : isSegmentForeground ops s segmentedRaster segment cur p = true
        · unfold fillPixel
          rw [if_pos hc]
          simp [List.getD_eq_getElem?_getD, List.getElem?_set, hlen]
        · unfold fillPixel
          rw [if_neg hc]
          rcases hcur with h | h
          · exfalso
            apply hc
            unfold isSegmentForeground
            simp only [Bool.and_eq_true, decide_eq_true_eq]
            exact ⟨by rw [h]; exact hfg.1, hfg.2⟩
          · exact h
      rcases foldl_fillPixel_getD ops s segmentedRaster segment fv pixels
          (fillPixel ops s segmentedRaster segment fv cur p) (p.2 * s.renderWidth + p.1) with h | h
      · rw [h, hstep]
      · exact h
    · apply ih _ hp
      · rw [fillPixel_length]; exact hlen
      · rcases fillPixel_getD ops s segmentedRaster segment fv cur p1
            (p.2 * s.renderWidth + p.1) with h | h
        · rw [h]; exact hcur
        · right; exact h

/-- C2 (amended): in one iteration of the segment loop, every visited pixel inside the raster
that is set (sample `> 0`) and whose expanded neighbourhood carries the label of the segment
ends with the value 255 when the area of the segment is less than or equal to the small-spot
threshold, and with the value 0 when the area is greater than the threshold. -/
theorem C2_fill_value_written {Range : Type} (ops : RasterOps Range) (s : Settings)
    (segmentedRaster : List Nat) (raster : List (Fin 256)) (segment : Segment)
    (p : Nat × Nat)
    (hp : p ∈ ops.ForEachPixel (ops.ExpandRange segment.xBegin segment.xEnd 0 s.renderWidth)
      (ops.ExpandRange segment.yBegin segment.yEnd 0 s.renderHeight))
    (hidx : p.2 * s.renderWidth + p.1 < raster.length)
    (hfg : isSegmentForeground ops s segmentedRaster segment raster p = true) :
    (segmentArea ops s segmentedRaster raster segment ≤ s.smallSpotThreshold →
      (processSegment ops s segmentedRaster raster segment).getD
        (p.2 * s.renderWidth + p.1) 0 = 255) ∧
    (segmentArea ops s segmentedRaster raster segment > s.smallSpotThreshold →
      (processSegment ops s segmentedRaster raster segment).getD
        (p.2 * s.renderWidth + p.1) 0 = 0) := by
  have key := foldl_fillPixel_written ops s segmentedRaster segment
    (fillValue (segmentArea ops s segmentedRaster raster segment) s.smallSpotThreshold)
    raster p hfg _ raster hp hidx (Or.inl rfl)
  constructor
  · intro h
    have hv : fillValue (segmentArea ops s segmentedRaster raster segment)
        s.smallSpotThreshold = 255 := by
      unfold fillValue; rw [if_neg (not_lt.mpr h)]
    exact key.trans hv
  · intro h
    have hv : fillValue (segmentArea ops s segmentedRaster raster segment)
        s.smallSpotThreshold = 0 := by
      unfold fillValue; rw [if_pos h]
    exact key.trans hv

/-- C2 (counterexample): a 4 by 1 raster with unit pixels, threshold 1, a segment of area 1
(pixel 0) and a segment of area 2 (pixels 2 and 3). The segment at the threshold keeps 255
and the segment above the threshold is written 0. -/
theorem C2_counterexample :
    segmentArea sampleOps (spotSettings 1 0) [1, 0, 2, 2] [255, 0, 255, 255] ⟨1, 0, 1, 0, 1⟩ = 1 ∧
    segmentArea sampleOps (spotSettings 1 0) [1, 0, 2, 2] [255, 0, 255, 255] ⟨2, 2, 4, 0, 1⟩ = 2 ∧
    (spotSettings 1 0).smallSpotThreshold = 1 ∧
    processSegment sampleOps (spotSettings 1 0) [1, 0, 2, 2] [255, 0, 255, 255]
      ⟨1, 0, 1, 0, 1⟩ = [255, 0, 255, 255] ∧
    processSegment sampleOps (spotSettings 1 0) [1, 0, 2, 2] [255, 0, 255, 255]
      ⟨2, 2, 4, 0, 1⟩ = [255, 0, 0, 0] ∧
    processSegments sampleOps (spotSettings 1 0) [1, 0, 2, 2] [255, 0, 255, 255]
      [⟨1, 0, 1, 0, 1⟩, ⟨2, 2, 4, 0, 1⟩] = [255, 0, 0, 0] := by
  have f1 : (List.filter (fun p : Fin 256 × Nat => decide (p.1.val > 0) && p.2 == 1)
      [(255, 1), (0, 0), (255, 2), (255, 2)]).length = 1 := by decide
  have f2 : (List.filter (fun p : Fin 256 × Nat => decide (p.1.val > 0) && p.2 == 2)
      [(255, 1), (0, 0), (255, 2), (255, 2)]).length = 2 := by decide
  have a1 : segmentArea sampleOps (spotSettings 1 0) [1, 0, 2, 2] [255, 0, 255, 255]
      ⟨1, 0, 1, 0, 1⟩ = 1 := by
    simp only [segmentArea, sampleOps, List.zip_cons_cons, List.zip_nil_right, f1]
    norm_num [physPixelArea, physWidth, physHeight, spotSettings]
  have a2 : segmentArea sampleOps (spotSettings 1 0) [1, 0, 2, 2] [255, 0, 255, 255]
      ⟨2, 2, 4, 0, 1⟩ = 2 := by
    simp only [segmentArea, sampleOps, List.zip_cons_cons, List.zip_nil_right, f2]
    norm_num [physPixelArea, physWidth, physHeight, spotSettings]
  have p1 : processSegment sampleOps (spotSettings 1 0) [1, 0, 2, 2] [255, 0, 255, 255]
      ⟨1, 0, 1, 0, 1⟩ = [255, 0, 255, 255] := by
    unfold processSegment
    rw [a1]
    simp [fillPixel, isSegmentForeground, fillValue, sampleOps, rangeList, spotSettings,
      List.range', List.flatMap]
  have p2 : processSegment sampleOps (spotSettings 1 0) [1, 0, 2, 2] [255, 0, 255, 255]
      ⟨2, 2, 4, 0, 1⟩ = [255, 0, 0, 0] := by
    unfold processSegment
    rw [a2]
    simp [fillPixel, isSegmentForeground, fillValue, sampleOps, rangeList, spotSettings,
      List.range', List.flatMap]
  refine ⟨a1, a2, rfl, p1, p2, ?_⟩
  unfold processSegments
  simp only [List.foldl_cons, List.foldl_nil]
  rw [p1, p2]

/-- C2 (amended), at pixel 3 of the sample raster: its segment has area 2 above the
threshold 1 and the pixel is written 0. -/
theorem C2_fill_value_written_witness :
    isSegmentForeground sampleOps (spotSettings 1 0) [1, 0, 2, 2] ⟨2, 2, 4, 0, 1⟩
      [255, 0, 255, 255] (3, 0) = true ∧
    (processSegment sampleOps (spotSettings 1 0) [1, 0, 2, 2] [255, 0, 255, 255]
      ⟨2, 2, 4, 0, 1⟩).getD 3 0 = 0 := by
  have hfg : isSegmentForeground sampleOps (spotSettings 1 0) [1, 0, 2, 2] ⟨2, 2, 4, 0, 1⟩
      [255, 0, 255, 255] (3, 0) = true := by
    simp [isSegmentForeground, sampleOps, rangeList, spotSettings, List.range']
  have f2 : (List.filter (fun p : Fin 256 × Nat => decide (p.1.val > 0) && p.2 == 2)
      [(255, 1), (0, 0), (255, 2), (255, 2)]).length = 2 := by decide
  have a2 : segmentArea sampleOps (spotSettings 1 0) [1, 0, 2, 2] [255, 0, 255, 255]
      ⟨2, 2, 4, 0, 1⟩ = 2 := by
    simp only [segmentArea, sampleOps, List.zip_cons_cons, List.zip_nil_right, f2]
    norm_num [physPixelArea, physWidth, physHeight, spotSettings]
  have h := C2_fill_value_written sampleOps (spotSettings 1 0) [1, 0, 2, 2] [255, 0, 255, 255]
    ⟨2, 2, 4, 0, 1⟩ (3, 0)
    (by simp [sampleOps, rangeList, spotSettings, List.range', List.flatMap])
    (by simp [spotSettings]) hfg
  refine ⟨hfg, ?_⟩
  have h2 := h.2 (by rw [a2]; norm_num [spotSettings])
  simpa [spotSettings] using h2

/-! ## C3 : plate check at load -/

/-! ### Folds of `min` and `max` -/

theorem min_foldl_min (l : List ℚ) : ∀ a b : ℚ, min a (l.foldl min b) = l.foldl min (min a b) := by
  induction l with
  | nil => intro a b; rfl
  | cons c l ih => intro a b; simp only [List.foldl_cons]; rw [ih, min_assoc]

theorem max_foldl_max (l : List ℚ) : ∀ a b : ℚ, max a (l.foldl max b) = l.foldl max (max a b) := by
  induction l with
  | nil => intro a b; rfl
  | cons c l ih => intro a b; simp only [List.foldl_cons]; rw [ih, max_assoc]

theorem foldl_min_spec (l : List ℚ) : ∀ a : ℚ,
    l.foldl min a ≤ a ∧ (∀ c ∈ l, l.foldl min a ≤ c) ∧ (l.foldl min a = a ∨ l.foldl min a ∈ l) := by
  induction l with
  | nil => intro a; simp
  | cons c l ih =>
    intro a
    obtain ⟨h1, h2, h3⟩ := ih (min a c)
    simp only [List.foldl_cons]
    refine ⟨h1.trans (min_le_left _ _), ?_, ?_⟩
    · intro d hd
      rcases List.mem_cons.mp hd with rfl | hd
      · exact h1.trans (min_le_right _ _)
      · exact h2 d hd
    · rcases h3 with h3 | h3
      · rcases min_choice a c with hm | hm
        · left; rw [h3, hm]
        · right; rw [h3, hm]; exact List.mem_cons_self _ _
      · right; exact List.mem_cons_of_mem _ h3

theorem foldl_max_spec (l : List ℚ) : ∀ a : ℚ,
    a ≤ l.foldl max a ∧ (∀ c ∈ l, c ≤ l.foldl max a) ∧ (l.foldl max a = a ∨ l.foldl max a ∈ l) := by
  induction l with
  | nil => intro a; simp
  | cons c l ih =>
    intro a
    obtain ⟨h1, h2, h3⟩ := ih (max a c)
    simp only [List.foldl_cons]
    refine ⟨(le_max_left _ _).trans h1, ?_, ?_⟩
    · intro d hd
      rcases List.mem_cons.mp hd with rfl | hd
      · exact (le_max_right _ _).trans h1
      · exact h2 d hd
    · rcases h3 with h3 | h3
      · rcases max_choice a c with hm | hm
        · left; rw [h3, hm]
        · right; rw [h3, hm]; exact List.mem_cons_self _ _
      · right; exact List.mem_cons_of_mem _ h3

/-! ### The bounding box computed by `CreateGeometryBuffers` -/

theorem meshBounds_fold (vb : List Vec3) : ∀ b : Vec3 × Vec3,
    (vb.foldl (fun b v => (Vec3.min b.1 v, Vec3.max b.2 v)) b).1.x =
        (vb.map (fun v => v.x)).foldl min b.1.x ∧
    (vb.foldl (fun b v => (Vec3.min b.1 v, Vec3.max b.2 v)) b).1.y =
        (vb.map (fun v => v.y)).foldl min b.1.y ∧
    (vb.foldl (fun b v => (Vec3.min b.1 v, Vec3.max b.2 v)) b).2.x =
        (vb.map (fun v => v.x)).foldl max b.2.x ∧
    (vb.foldl (fun b v => (Vec3.min b.1 v, Vec3.max b.2 v)) b).2.y =
        (vb.map (fun v => v.y)).foldl max b.2.y := by
  induction vb with
  | nil => intro b; simp
  | cons v vb ih =>
    intro b
    simp only [List.foldl_cons, List.map_cons]
    exact ih _

/-- The box the submesh loop leaves in `model_`, as plain folds over the coordinates. -/
theorem addSubmesh_fold (meshes : List Submesh) : ∀ r : Renderer,
    r.model_.min.x ≤ FLT_MAX → r.model_.min.y ≤ FLT_MAX →
    -FLT_MAX ≤ r.model_.max.x → -FLT_MAX ≤ r.model_.max.y →
    (meshes.foldl addSubmesh r).settings_ = r.settings_ ∧
    (meshes.foldl addSubmesh r).model_.min.x =
      ((allVertices meshes).map (fun v => v.x)).foldl min r.model_.min.x ∧
    (meshes.foldl addSubmesh r).model_.min.y =
      ((allVertices meshes).map (fun v => v.y)).foldl min r.model_.min.y ∧
    (meshes.foldl addSubmesh r).model_.max.x =
      ((allVertices meshes).map (fun v => v.x)).foldl max r.model_.max.x ∧
    (meshes.foldl addSubmesh r).model_.max.y =
      ((allVertices meshes).map (fun v => v.y)).foldl max r.model_.max.y := by
  induction meshes with
  | nil => intro r _ _ _ _; simp [allVertices]
  | cons m meshes ih =>
    intro r h1 h2 h3 h4
    obtain ⟨e1, e2, e3, e4⟩ := meshBounds_fold m.vb (Vec3.splat FLT_MAX, Vec3.splat (-FLT_MAX))
    change (meshBounds m.vb).1.x = _ at e1
    change (meshBounds m.vb).1.y = _ at e2
    change (meshBounds m.vb).2.x = _ at e3
    change (meshBounds m.vb).2.y = _ at e4
    have a1 : (addSubmesh r m).model_.min.x =
        (m.vb.map (fun v => v.x)).foldl min r.model_.min.x := by
      show min r.model_.min.x (meshBounds m.vb).1.x = _
      rw [e1, min_foldl_min]
      simp [Vec3.splat, min_eq_left h1]
    have a2 : (addSubmesh r m).model_.min.y =
        (m.vb.map (fun v => v.y)).foldl min r.model_.min.y := by
      show min r.model_.min.y (meshBounds m.vb).1.y = _
      rw [e2, min_foldl_min]
      simp [Vec3.splat, min_eq_left h2]
    have a3 : (addSubmesh r m).model_.max.x =
        (m.vb.map (fun v => v.x)).foldl max r.model_.max.x := by
      show max r.model_.max.x (meshBounds m.vb).2.x = _
      rw [e3, max_foldl_max]
      simp [Vec3.splat, max_eq_left h3]
    have a4 : (addSubmesh r m).model_.max.y =
        (m.vb.map (fun v => v.y)).foldl max r.model_.max.y := by
      show max r.model_.max.y (meshBounds m.vb).2.y = _
      rw [e4, max_foldl_max]
      simp [Vec3.splat, max_eq_left h4]
    have b1 : (addSubmesh r m).model_.min.x ≤ FLT_MAX := by
      rw [a1]; exact (foldl_min_spec _ _).1.trans h1
    have b2 : (addSubmesh r m).model_.min.y ≤ FLT_MAX := by
      rw [a2]; exact (foldl_min_spec _ _).1.trans h2
    have b3 : -FLT_MAX ≤ (addSubmesh r m).model_.max.x := by
      rw [a3]; exact h3.trans (foldl_max_spec _ _).1
    have b4 : -FLT_MAX ≤ (addSubmesh r m).model_.max.y := by
      rw [a4]; exact h4.trans (foldl_max_spec _ _).1
    obtain ⟨i0, i1, i2, i3, i4⟩ := ih (addSubmesh r m) b1 b2 b3 b4
    simp only [List.foldl_cons]
    refine ⟨i0.trans (by simp [addSubmesh]), ?_, ?_, ?_, ?_⟩
    · rw [i1, a1]; simp [allVertices, List.foldl_append]
    · rw [i2, a2]; simp [allVertices, List.foldl_append]
    · rw [i3, a3]; simp [allVertices, List.foldl_append]
    · rw [i4, a4]; simp [allVertices, List.foldl_append]

/-- The least coordinate among finite values is what the fold from `FLT_MAX` computes. -/
theorem foldl_min_isLeast (l : List ℚ) (hne : l ≠ []) (hfin : ∀ c ∈ l, c ≤ FLT_MAX) :
    IsLeast {c | c ∈ l} (l.foldl min FLT_MAX) := by
  obtain ⟨h1, h2, h3⟩ := foldl_min_spec l FLT_MAX
  refine ⟨?_, fun c hc => h2 c hc⟩
  rcases h3 with h3 | h3
  · obtain ⟨c, hc⟩ := List.exists_mem_of_ne_nil l hne
    have : c = l.foldl min FLT_MAX := le_antisymm (by rw [h3]; exact hfin c hc) (h2 c hc)
    show l.foldl min FLT_MAX ∈ l
    rw [← this]; exact hc
  · exact h3

theorem foldl_max_isGreatest (l : List ℚ) (hne : l ≠ []) (hfin : ∀ c ∈ l, -FLT_MAX ≤ c) :
    IsGreatest {c | c ∈ l} (l.foldl max (-FLT_MAX)) := by
  obtain ⟨h1, h2, h3⟩ := foldl_max_spec l (-FLT_MAX)
  refine ⟨?_, fun c hc => h2 c hc⟩
  rcases h3 with h3 | h3
  · obtain ⟨c, hc⟩ := List.exists_mem_of_ne_nil l hne
    have : c = l.foldl max (-FLT_MAX) := le_antisymm (h2 c hc) (by rw [h3]; exact hfin c hc)
    show l.foldl max (-FLT_MAX) ∈ l
    rw [← this]; exact hc
  · exact h3

theorem createGeometryBuffers_eq (r : Renderer) (meshes : List Submesh) :
    CreateGeometryBuffers r meshes =
      if ((meshes.foldl addSubmesh { r with model_ := { r.model_ with
              min := Vec3.splat FLT_MAX, max := Vec3.splat (-FLT_MAX) } }).model_.max.x -
            (meshes.foldl addSubmesh { r with model_ := { r.model_ with
              min := Vec3.splat FLT_MAX, max := Vec3.splat (-FLT_MAX) } }).model_.min.x >
              r.settings_.plateWidth ∨
          (meshes.foldl addSubmesh { r with model_ := { r.model_ with
              min := Vec3.splat FLT_MAX, max := Vec3.splat (-FLT_MAX) } }).model_.max.y -
            (meshes.foldl addSubmesh { r with model_ := { r.model_ with
              min := Vec3.splat FLT_MAX, max := Vec3.splat (-FLT_MAX) } }).model_.min.y >
              r.settings_.plateHeight) then
        Except.error "Model is larger than platform"
      else
        Except.ok { (meshes.foldl addSubmesh { r with model_ := { r.model_ with
              min := Vec3.splat FLT_MAX, max := Vec3.splat (-FLT_MAX) } }) with
          model_ := { (meshes.foldl addSubmesh { r with model_ := { r.model_ with
              min := Vec3.splat FLT_MAX, max := Vec3.splat (-FLT_MAX) } }).model_ with
            pos := (meshes.foldl addSubmesh { r with model_ := { r.model_ with
              min := Vec3.splat FLT_MAX, max := Vec3.splat (-FLT_MAX) } }).model_.min.z } } := by
  have hs := (addSubmesh_fold meshes { r with model_ := { r.model_ with
      min := Vec3.splat FLT_MAX, max := Vec3.splat (-FLT_MAX) } }
    (le_refl _) (le_refl _) (le_refl _) (le_refl _)).1
  simp only [CreateGeometryBuffers, Vec3.sub, hs]

/-- The box found by the loading loop is the true bounding box in x and y. -/
theorem load_box (r : Renderer) (meshes : List Submesh) (hne : allVertices meshes ≠ [])
    (hfin : ∀ v ∈ allVertices meshes, v.Finite) :
    IsLeast {c | ∃ v ∈ allVertices meshes, v.x = c}
      (meshes.foldl addSubmesh { r with model_ := { r.model_ with
          min := Vec3.splat FLT_MAX, max := Vec3.splat (-FLT_MAX) } }).model_.min.x ∧
    IsGreatest {c | ∃ v ∈ allVertices meshes, v.x = c}
      (meshes.foldl addSubmesh { r with model_ := { r.model_ with
          min := Vec3.splat FLT_MAX, max := Vec3.splat (-FLT_MAX) } }).model_.max.x ∧
    IsLeast {c | ∃ v ∈ allVertices meshes, v.y = c}
      (meshes.foldl addSubmesh { r with model_ := { r.model_ with
          min := Vec3.splat FLT_MAX, max := Vec3.splat (-FLT_MAX) } }).model_.min.y ∧
    IsGreatest {c | ∃ v ∈ allVertices meshes, v.y = c}
      (meshes.foldl addSubmesh { r with model_ := { r.model_ with
          min := Vec3.splat FLT_MAX, max := Vec3.splat (-FLT_MAX) } }).model_.max.y := by
  obtain ⟨-, e1, e2, e3, e4⟩ := addSubmesh_fold meshes { r with model_ := { r.model_ with
      min := Vec3.splat FLT_MAX, max := Vec3.splat (-FLT_MAX) } }
    (le_refl _) (le_refl _) (le_refl _) (le_refl _)
  have sx : {c | ∃ v ∈ allVertices meshes, v.x = c} =
      {c | c ∈ (allVertices meshes).map (fun v => v.x)} := by
    ext c; simp [List.mem_map]
  have sy : {c | ∃ v ∈ allVertices meshes, v.y = c} =
      {c | c ∈ (allVertices meshes).map (fun v => v.y)} := by
    ext c; simp [List.mem_map]
  have nx : (allVertices meshes).map (fun v => v.x) ≠ [] := by simpa using hne
  have ny : (allVertices meshes).map (fun v => v.y) ≠ [] := by simpa using hne
  rw [e1, e2, e3, e4, sx, sy]
  refine ⟨foldl_min_isLeast _ nx ?_, foldl_max_isGreatest _ nx ?_,
    foldl_min_isLeast _ ny ?_, foldl_max_isGreatest _ ny ?_⟩
  · intro c hc
    obtain ⟨v, hv, rfl⟩ := List.mem_map.mp hc
    exact (hfin v hv).1.2
  · intro c hc
    obtain ⟨v, hv, rfl⟩ := List.mem_map.mp hc
    exact (hfin v hv).1.1
  · intro c hc
    obtain ⟨v, hv, rfl⟩ := List.mem_map.mp hc
    exact (hfin v hv).2.1.2
  · intro c hc
    obtain ⟨v, hv, rfl⟩ := List.mem_map.mp hc
    exact (hfin v hv).2.1.1

theorem load_fails_iff (r : Renderer) (meshes : List Submesh) (hne : allVertices meshes ≠ [])
    (hfin : ∀ v ∈ allVertices meshes, v.Finite) (xlo xhi ylo yhi : ℚ)
    (hxlo : IsLeast {c | ∃ v ∈ allVertices meshes, v.x = c} xlo)
    (hxhi : IsGreatest {c | ∃ v ∈ allVertices meshes, v.x = c} xhi)
    (hylo : IsLeast {c | ∃ v ∈ allVertices meshes, v.y = c} ylo)
    (hyhi : IsGreatest {c | ∃ v ∈ allVertices meshes, v.y = c} yhi) :
    (CreateGeometryBuffers r meshes = Except.error "Model is larger than platform" ↔
      (xhi - xlo > r.settings_.plateWidth ∨ yhi - ylo > r.settings_.plateHeight)) ∧
    ((∃ r1, CreateGeometryBuffers r meshes = Except.ok r1) ↔
      ¬ (xhi - xlo > r.settings_.plateWidth ∨ yhi - ylo > r.settings_.plateHeight)) := by
  obtain ⟨b1, b2, b3, b4⟩ := load_box r meshes hne hfin
  rw [createGeometryBuffers_eq, b1.unique hxlo, b2.unique hxhi, b3.unique hylo, b4.unique hyhi]
  by_cases hc : xhi - xlo > r.settings_.plateWidth ∨ yhi - ylo > r.settings_.plateHeight
  · rw [if_pos hc]
    simp [hc]
  · rw [if_neg hc]
    simp [hc]

theorem allVertices_map (f : Vec3 → Vec3) (meshes : List Submesh) :
    allVertices (meshes.map (Submesh.mapPositions f)) = (allVertices meshes).map f := by
  induction meshes with
  | nil => rfl
  | cons m meshes ih =>
    simp only [allVertices, List.map_cons, List.flatten_cons, List.map_append] at ih ⊢
    rw [ih]
    rfl

theorem createGeometryBuffers_pos (r0 : Renderer) (meshes : List Submesh) (r : Renderer)
    (h : CreateGeometryBuffers r0 meshes = Except.ok r) : r.model_.pos = r.model_.min.z := by
  rw [createGeometryBuffers_eq] at h
  split_ifs at h
  simp only [Except.ok.injEq] at h
  rw [← h]

/-- C7: `HasOverhangs` returns `true` if and only if some sample of the raster is 255; it
returns `false` on the empty raster, and its result does not depend on `width` and
`height`. -/
theorem C7_hasOverhangs_iff_max_sample (raster : List (Fin 256)) (width height : Nat) :
    (HasOverhangs raster width height = true ↔ ∃ v ∈ raster, v = (255 : Fin 256)) ∧
    HasOverhangs [] width height = false ∧
    ∀ width1 height1 : Nat,
      HasOverhangs raster width1 height1 = HasOverhangs raster width height := by
  refine ⟨?_, rfl, ?_⟩
  · induction raster with
    | nil => simp [HasOverhangs]
    | cons v rest ih =>
      have hv : v.val ≥ 255 ↔ v = (255 : Fin 256) := by
        constructor
        · intro h
          apply Fin.ext
          have := v.isLt
          show v.val = 255
          omega
        · intro h; rw [h]; decide
      unfold HasOverhangs
      by_cases hc : v.val ≥ 255
      · rw [if_pos hc]
        simp only [true_iff]
        exact ⟨v, List.mem_cons_self _ _, hv.mp hc⟩
      · rw [if_neg hc, ih]
        constructor
        · rintro ⟨w, hw, hw2⟩
          exact ⟨w, List.mem_cons_of_mem _ hw, hw2⟩
        · rintro ⟨w, hw, hw2⟩
          rcases List.mem_cons.mp hw with rfl | hw
          · exact absurd (hv.mpr hw2) hc
          · exact ⟨w, hw, hw2⟩
  · intro width1 height1
    induction raster with
    | nil => rfl
    | cons v rest ih =>
      unfold HasOverhangs
      rw [ih]

/-! ## C8 : bound of the PNG write queue -/

theorem savePng_length_le (s : Settings) (ready : Nat → Bool) (future : Nat) (q : List Nat)
    (hq : q.length ≤ s.queue + 1) : (SavePng s ready future q).length ≤ s.queue + 1 := by
  unfold SavePng
  simp only [gt_iff_lt, decide_eq_true_eq]
  split_ifs with h1 h2
  · exact (List.length_filter_le _ _).trans hq
  · simp only [List.length_append, List.length_singleton]
    omega
  · simp only [List.length_append, List.length_singleton]
    omega

/-- C8 (amended): after any sequence of `SavePng` calls from the empty list, the number of
stored tasks is at most `queue + 1`. A call that finds more than `queue` stored tasks sweeps the
completed ones and, if more than `queue` remain, stores nothing more; a call that finds at most
`queue` stored tasks appends its task. -/
theorem C8_savePng_queue_bound (s : Settings) (calls : List ((Nat → Bool) × Nat)) :
    (SavePngCalls s calls []).length ≤ s.queue + 1 ∧
    (∀ (ready : Nat → Bool) (future : Nat) (q : List Nat), q.length ≤ s.queue + 1 →
      (SavePng s ready future q).length ≤ s.queue + 1) ∧
    (∀ (ready : Nat → Bool) (future : Nat) (q : List Nat), q.length > s.queue →
      (q.filter (fun v => !ready v)).length > s.queue →
      SavePng s ready future q = q.filter (fun v => !ready v)) ∧
    (∀ (ready : Nat → Bool) (future : Nat) (q : List Nat), q.length ≤ s.queue →
      SavePng s ready future q = q ++ [future]) := by
  refine ⟨?_, fun ready future q hq => savePng_length_le s ready future q hq, ?_, ?_⟩
  · have gen : ∀ (cs : List ((Nat → Bool) × Nat)) (q : List Nat), q.length ≤ s.queue + 1 →
        (SavePngCalls s cs q).length ≤ s.queue + 1 := by
      intro cs
      induction cs with
      | nil => intro q hq; exact hq
      | cons c cs ih =>
        intro q hq
        unfold SavePngCalls
        simp only [List.foldl_cons]
        exact ih _ (savePng_length_le s c.1 c.2 q hq)
    exact gen calls [] (by simp)
  · intro ready future q h1 h2
    unfold SavePng
    simp only [gt_iff_lt, decide_eq_true_eq]
    rw [if_pos h1, if_pos h2]
  · intro ready future q h1
    unfold SavePng
    simp only [gt_iff_lt, decide_eq_true_eq]
    rw [if_neg (by omega)]

/-- C8 (counterexample): queue depth 2, three calls, no task completed: three tasks are
stored when the third call returns. -/
theorem C8_counterexample :
    (queueSettings 2).queue = 2 ∧
    SavePngCalls (queueSettings 2)
      [(fun _ => false, 1), (fun _ => false, 2), (fun _ => false, 3)] [] = [1, 2, 3] ∧
    ¬ (SavePngCalls (queueSettings 2)
      [(fun _ => false, 1), (fun _ => false, 2), (fun _ => false, 3)] []).length ≤
        (queueSettings 2).queue := by
  refine ⟨rfl, ?_, ?_⟩
  · simp [SavePngCalls, SavePng, queueSettings]
  · simp [SavePngCalls, SavePng, queueSettings]

/-! ## C9 : culling test of the Model pass -/

/-- The dilation loop from a state that has made `j` rounds, with enough fuel. -/
theorem dilateLoop_run {Range : Type} (ops : RasterOps Range) (s : Settings)
    (hp : 0 < roundExpansion s) (hd : 0 ≤ s.smallSpotInflateDistance) :
    ∀ (fuel j : Nat) (st : DilateState),
      j ≤ ⌊s.smallSpotInflateDistance / roundExpansion s⌋₊ + 1 →
      st.expansionSize = (j : ℚ) * roundExpansion s → st.rounds = j →
      ⌊s.smallSpotInflateDistance / roundExpansion s⌋₊ + 1 - j < fuel →
      ∃ st1, dilateLoop ops s fuel st = some st1 ∧
        st1.rounds = ⌊s.smallSpotInflateDistance / roundExpansion s⌋₊ + 1 ∧
        st1.expansionSize = (st1.rounds : ℚ) * roundExpansion s := by
  intro fuel
  induction fuel with
  | zero => intro j st _ _ _ hf; omega
  | succ fuel ih =>
    intro j st hj he hr hf
    have hq : 0 ≤ s.smallSpotInflateDistance / roundExpansion s := div_nonneg hd hp.le
    rw [dilateLoop]
    by_cases hc : st.expansionSize ≤ s.smallSpotInflateDistance
    · rw [if_pos hc]
      have hjle : j ≤ ⌊s.smallSpotInflateDistance / roundExpansion s⌋₊ := by
        rw [Nat.le_floor_iff hq, le_div_iff₀ hp, ← he]
        exact hc
      apply ih (j + 1)
      · omega
      · show st.expansionSize + (physWidth s + physHeight s) / 2 = _
        rw [he]; push_cast; unfold roundExpansion; ring
      · show st.rounds + 1 = j + 1
        rw [hr]
      · omega
    · rw [if_neg hc]
      have hjgt : ⌊s.smallSpotInflateDistance / roundExpansion s⌋₊ < j := by
        rw [Nat.floor_lt hq, div_lt_iff₀ hp, ← he]
        exact not_le.mp hc
      have hjeq : j = ⌊s.smallSpotInflateDistance / roundExpansion s⌋₊ + 1 := by omega
      exact ⟨st, rfl, by rw [hr, ← hjeq], by rw [hr]; exact he⟩

/-- C12: for every submesh with `zMin ≤ zMax`, every inflate distance `d ≥ 0` and every `pos`
with `zMin - d ≤ pos ≤ zMax + d`, `ShouldRender` returns `true`, in upside-down and in normal
rendering alike, and the Model pass draws the submesh. -/
theorem C12_crossing_submesh_is_rendered (r : Renderer) (info : MeshInfo)
    (inflateDistance : ℚ) (_hz : info.zMin ≤ info.zMax) (_hd : 0 ≤ inflateDistance)
    (hlo : info.zMin - inflateDistance ≤ r.model_.pos)
    (hhi : r.model_.pos ≤ info.zMax + inflateDistance) :
    ShouldRender r info inflateDistance = true ∧
    (IsUpsideDownRendering r = true → ShouldRender r info inflateDistance = true) ∧
    (IsUpsideDownRendering r = false → ShouldRender r info inflateDistance = true) ∧
    (∀ i : Nat, r.meshInfo_[i]? = some info → i ∈ Model r inflateDistance) := by
  have key : ShouldRender r info inflateDistance = true := by
    unfold ShouldRender
    split_ifs
    · exact decide_eq_true hlo
    · exact decide_eq_true hhi
  refine ⟨key, fun _ => key, fun _ => key, ?_⟩
  intro i hi
  unfold Model
  refine List.mem_map.mpr ⟨(i, info), List.mem_filter.mpr ⟨?_, key⟩, rfl⟩
  exact List.mk_mem_enum_iff_getElem?.mpr hi

/-- C12, at the unit cube with the slice plane on its lower face (upside-down rendering) and
on its upper face (normal rendering). -/
theorem C12_crossing_submesh_is_rendered_witness :
    (IsUpsideDownRendering loadedCubeFine = true ∧
      ShouldRender loadedCubeFine { idxCount := 3, zMin := 0, zMax := 1 } 0 = true ∧
      0 ∈ Model loadedCubeFine 0) ∧
    (IsUpsideDownRendering (mkSeq 0 1 1 1) = false ∧
      ShouldRender (mkSeq 0 1 1 1) { idxCount := 3, zMin := 0, zMax := 1 } 0 = true) := by
  have h := C12_crossing_submesh_is_rendered loadedCubeFine
    { idxCount := 3, zMin := 0, zMax := 1 } 0 (by norm_num) (by norm_num)
    (by norm_num [loadedCubeFine, mkSeq]) (by norm_num [loadedCubeFine, mkSeq])
  refine ⟨⟨by norm_num [IsUpsideDownRendering, loadedCubeFine, mkSeq], h.1,
    h.2.2.2 0 (by simp [loadedCubeFine, mkSeq])⟩, ?_, ?_⟩
  · norm_num [IsUpsideDownRendering, mkSeq]
  · norm_num [IsUpsideDownRendering, ShouldRender, mkSeq]

end YaSlicer
